import Mathlib

/-
Verification development for the couchdb view-engine mapreduce interface
(src/src/mapreduce/mapreduce.h).

The only code present in the repository is the header: it defines the
outcome-checking helper templates CheckSuccess and CheckSuccessBool, the
data types (kv pairs, the map result tag plus raw union, the context
record, the MapReduceError class) and declares the engine entry points
(initContext, destroyContext, mapDoc, runReduce, runRereduce,
terminateTask, initV8, deinitV8).  Definitions below that embed code from
the header are translated directly from it; the entry points whose bodies
are not in the repository are modelled from the specification document and
carry a doc comment saying so.
-/

/-- Embedding of ErlNifBinary: a byte buffer holding JSON-encoded data.
Modelled as a String (the byte content). -/
abbrev ErlNifBinary := String

/-- Embedding of the header typedef json_results_list_t:
std::list of ErlNifBinary. -/
abbrev json_results_list_t := List ErlNifBinary

/-- Embedding of the header typedef log_results_list_t. -/
abbrev log_results_list_t := List ErlNifBinary

/-- Embedding of the header typedef kv_pair_t: std::pair of two
ErlNifBinary buffers (JSON key, JSON value). -/
abbrev kv_pair_t := ErlNifBinary × ErlNifBinary

/-- Embedding of the header typedef kv_pair_list_t. -/
abbrev kv_pair_list_t := List kv_pair_t

/-- Embedding of the header enum view_index_type_t. -/
inductive view_index_type_t where
  | VIEW_INDEX_TYPE_MAPREDUCE
  | VIEW_INDEX_TYPE_SPATIAL
deriving Repr, DecidableEq

/-- Embedding of the header enum map_result_type_t: the separately stored
discriminant of map_result_t. -/
inductive map_result_type_t where
  | MAP_KVS
  | MAP_ERROR
deriving Repr, DecidableEq

/-- Embedding of the anonymous union inside map_result_t.  A C union
stores one member at a time; the embedding records which member was last
stored.  Nothing ties this to the separately stored discriminant field. -/
inductive map_result_union where
  | kvs (l : kv_pair_list_t)
  | error (e : ErlNifBinary)
deriving Repr, DecidableEq

/-- Embedding of the header struct map_result_t: a discriminant field
`type` next to a raw union field `result`.  The two fields are
independent, exactly as in the C struct: the type system does not force
the discriminant to agree with the populated union member. -/
structure map_result_t where
  type : map_result_type_t
  result : map_result_union
deriving Repr, DecidableEq

/-- Embedding of the header typedef map_results_list_t. -/
abbrev map_results_list_t := List map_result_t

/-- Well-formedness of a map_result_t value: the discriminant matches the
populated union member (MAP_KVS with a kv list, MAP_ERROR with an error
buffer). -/
def map_result_wf (r : map_result_t) : Prop :=
  match r.type, r.result with
  | map_result_type_t.MAP_KVS, map_result_union.kvs _ => True
  | map_result_type_t.MAP_ERROR, map_result_union.error _ => True
  | _, _ => False

/-- Embedding of v8::Maybe from the v8 API used by the header: either a
contained value or empty. -/
inductive Maybe (T : Type) where
  | just (a : T)
  | nothing
deriving Repr, DecidableEq

/-- Embedding of the header helper template CheckSuccessBool.  Its body in
the source is empty (comment: Fail Silently): it inspects nothing and
returns void for every input. -/
def CheckSuccessBool {T : Type} (param : T) (file : String) (caller : String)
    (line : Int) : Unit := ()

/-- Embedding of the header helper template CheckSuccess, instantiated at
bool (the v8::Maybe payload the guard condition reads).  The source body
extracts the payload with FromJust and has an empty branch on failure
(comment: Fail silently).  FromJust on an empty Maybe aborts the process,
modelled as `none`; on a populated Maybe the helper returns void whether
the payload reports success or failure. -/
def CheckSuccess (fromArg : Maybe Bool) (file : String) (caller : String)
    (line : Int) : Option Unit :=
  match fromArg with
  | Maybe.just _ => some ()
  | Maybe.nothing => none

/-- Embedding of the header class MapReduceError: a single private
std::string field set at construction. -/
structure MapReduceError where
  _msg : String
deriving Repr, DecidableEq

/-- Embedding of the MapReduceError constructor taking a C string. -/
def MapReduceError.fromCString (msg : String) : MapReduceError :=
  { _msg := msg }

/-- Embedding of the MapReduceError constructor taking a std::string. -/
def MapReduceError.fromStdString (msg : String) : MapReduceError :=
  { _msg := msg }

/-- Embedding of MapReduceError::getMsg. -/
def MapReduceError.getMsg (e : MapReduceError) : String :=
  e._msg

/-- Claim C1 (counterexample): checking a failed outcome through the
header helpers is indistinguishable from checking a successful one — the
helper output on a failed boolean outcome, and on a Maybe holding false,
equals its output on the corresponding success.  The failure is swallowed,
contradicting the claim that these helpers never swallow a failed outcome. -/
theorem checkSuccess_swallows_failure_counterexample :
    CheckSuccessBool false "mapreduce.cc" "caller" 10 =
      CheckSuccessBool true "mapreduce.cc" "caller" 10 ∧
    CheckSuccess (Maybe.just false) "mapreduce.cc" "caller" 10 =
      CheckSuccess (Maybe.just true) "mapreduce.cc" "caller" 10 :=
  ⟨rfl, rfl⟩

/-- Claim C1 (amended): CheckSuccessBool returns plain void for every
input of every type, and CheckSuccess returns plain void for every
populated Maybe, including one reporting failure: both helpers silently
discard failed outcomes instead of surfacing them. -/
theorem checkSuccess_fails_silently :
    (∀ (T : Type) (x : T) (file caller : String) (line : Int),
      CheckSuccessBool x file caller line = ()) ∧
    (∀ (b : Bool) (file caller : String) (line : Int),
      CheckSuccess (Maybe.just b) file caller line = some ()) :=
  ⟨fun _ _ _ _ _ => rfl, fun _ _ _ _ => rfl⟩

/-- Claim C10: a MapReduceError built from a message m by either
constructor returns exactly m from getMsg, and the message is the whole
observable content: two errors with equal messages are equal. -/
theorem mapReduceError_msg_roundtrip (m : String) :
    (MapReduceError.fromCString m).getMsg = m ∧
    (MapReduceError.fromStdString m).getMsg = m ∧
    (∀ e1 e2 : MapReduceError, e1.getMsg = e2.getMsg → e1 = e2) := by
  refine ⟨rfl, rfl, ?_⟩
  intro e1 e2 h
  cases e1
  cases e2
  simpa [MapReduceError.getMsg] using h

/-- Claim C10 (witness): the round trip evaluated at the concrete message
string, with the extensionality hypothesis discharged on two concretely
built errors. -/
theorem mapReduceError_msg_roundtrip_witness :
    (MapReduceError.fromCString "compile failure").getMsg = "compile failure" ∧
    MapReduceError.fromCString "x" = MapReduceError.fromStdString "x" :=
  ⟨(mapReduceError_msg_roundtrip "compile failure").1,
   (mapReduceError_msg_roundtrip "x").2.2 (MapReduceError.fromCString "x")
     (MapReduceError.fromStdString "x") rfl⟩

/-- Claim C8 (counterexample): the C struct map_result_t tracks its
discriminant separately from the raw union, so a value whose discriminant
says MAP_ERROR while the union holds a kv list is representable — the
discriminant does not always match the populated variant. -/
theorem map_result_tag_mismatch_counterexample :
    ¬ map_result_wf
        { type := map_result_type_t.MAP_ERROR,
          result := map_result_union.kvs [] } := by
  simp [map_result_wf]

/-- Embedding of the header typedef function_source_t: the raw text of
one user function. -/
abbrev function_source_t := String

/-- Embedding of the header typedef function_sources_list_t. -/
abbrev function_sources_list_t := List function_source_t

/-- Modelled from the spec: the behaviour of one compiled map function
(the header stores v8::Persistent function handles; the compiled bodies
are not in the repository).  A map function, run on a document and a
metadata record, produces the ordered sequence of kv pairs it emits. -/
abbrev map_function_t := ErlNifBinary → ErlNifBinary → kv_pair_list_t

/-- Embedding of the header typedef function_vector_t: the ordered list of
compiled function handles owned by a context. -/
abbrev function_vector_t := List map_function_t

/-- Embedding of the header struct map_reduce_ctx_t, data fields only.
The engine-handle fields (jsContext, isolate, env) and the exitMutex have
no pure representation; the lock protocol guarded by exitMutex is modelled
separately below as a transition system. -/
structure map_reduce_ctx_t where
  functions : function_vector_t
  kvs : kv_pair_list_t
  taskStartTime : Nat
  emitKvSize : Nat
  maxEmitKvSize : Nat
  isDocUsed : Bool
  logResults : log_results_list_t
  viewType : view_index_type_t

/-- Encoded byte length of one emitted kv pair: the length of the JSON
key buffer plus the length of the JSON value buffer. -/
def kvByteSize (kv : kv_pair_t) : Nat :=
  kv.1.length + kv.2.length

/-- Total encoded byte length of a list of kv pairs. -/
def kvListByteSize (l : kv_pair_list_t) : Nat :=
  (l.map kvByteSize).sum

/-- State of one map function evaluation: the running emitted-byte
counter, the kv pairs recorded so far, and whether the evaluation was
aborted for exceeding the budget. -/
structure emit_state_t where
  emitKvSize : Nat
  kvs : kv_pair_list_t
  aborted : Bool
deriving Repr, DecidableEq

/-- Modelled from the spec: the emit callback loop of mapDoc (mapreduce.cc
is not in the repository).  Each emission appends its kv pair to the
accumulator and adds its byte length to the counter; as soon as the
counter exceeds the budget the evaluation is aborted immediately and no
further emissions are recorded. -/
def emitAll (maxEmitKvSize : Nat) (emitKvSize : Nat) :
    kv_pair_list_t → emit_state_t
  | [] => { emitKvSize := emitKvSize, kvs := [], aborted := false }
  | kv :: rest =>
    let newSize := emitKvSize + kvByteSize kv
    if maxEmitKvSize < newSize then
      { emitKvSize := newSize, kvs := [kv], aborted := true }
    else
      let st := emitAll maxEmitKvSize newSize rest
      { st with kvs := kv :: st.kvs }

/-- Diagnostic message of a map function aborted for exceeding the
emission budget. -/
def emitBudgetErrorMsg : ErlNifBinary :=
  "emission budget exceeded"

/-- Modelled from the spec: evaluation of one compiled map function
against a document (the mapDoc body is not in the repository).  The
emissions of the function are folded through the emit callback starting
from a zero counter; if the budget was exceeded the result is the error
variant carrying the diagnostic, otherwise the kv-list variant carrying
the recorded pairs. -/
def runMapFunction (maxEmitKvSize : Nat) (emitted : kv_pair_list_t) :
    map_result_t :=
  let st := emitAll maxEmitKvSize 0 emitted
  if st.aborted then
    { type := map_result_type_t.MAP_ERROR,
      result := map_result_union.error emitBudgetErrorMsg }
  else
    { type := map_result_type_t.MAP_KVS,
      result := map_result_union.kvs st.kvs }

/-- Modelled from the spec: mapDoc (its body is not in the repository).
Each compiled map function is invoked in source order with the document
and metadata; each function gets its own private accumulator and its own
budget scope (the spec states sibling functions are unaffected by one
function exceeding the budget), producing one map_result_t per function. -/
def mapDoc (ctx : map_reduce_ctx_t) (doc : ErlNifBinary)
    (meta : ErlNifBinary) : map_results_list_t :=
  ctx.functions.map (fun f => runMapFunction ctx.maxEmitKvSize (f doc meta))

theorem kvListByteSize_nil : kvListByteSize [] = 0 := rfl

theorem kvListByteSize_cons (kv : kv_pair_t) (l : kv_pair_list_t) :
    kvListByteSize (kv :: l) = kvByteSize kv + kvListByteSize l := by
  simp [kvListByteSize]

/-- The emitted-byte counter produced by the emit loop never falls below
the counter value it started from. -/
theorem emitAll_counter_mono (maxEmitKvSize : Nat) :
    ∀ (l : kv_pair_list_t) (c : Nat), c ≤ (emitAll maxEmitKvSize c l).emitKvSize := by
  intro l
  induction l with
  | nil => intro c; simp [emitAll]
  | cons kv rest ih =>
    intro c
    simp only [emitAll]
    by_cases h : maxEmitKvSize < c + kvByteSize kv
    · simp [h]
    · simp only [h, if_false]
      exact le_trans (Nat.le_add_right c (kvByteSize kv)) (ih (c + kvByteSize kv))

/-- Full characterisation of the emit loop, by induction on the emission
list with the starting counter generalised (the starting counter must not
already exceed the budget): the loop aborts exactly when the total size
crosses the budget, and the recorded pairs are the shortest crossing
initial segment of the emissions when it aborts, the whole list
otherwise. -/
theorem emitAll_spec (maxEmitKvSize : Nat) :
    ∀ (l : kv_pair_list_t) (c : Nat), c ≤ maxEmitKvSize →
      ((emitAll maxEmitKvSize c l).aborted = true ↔
        maxEmitKvSize < c + kvListByteSize l) ∧
      (∃ k, k ≤ l.length ∧ (emitAll maxEmitKvSize c l).kvs = l.take k ∧
        ((emitAll maxEmitKvSize c l).aborted = true →
          0 < k ∧ maxEmitKvSize < c + kvListByteSize (l.take k) ∧
            ∀ j, j < k → c + kvListByteSize (l.take j) ≤ maxEmitKvSize) ∧
        ((emitAll maxEmitKvSize c l).aborted = false → k = l.length)) := by
  intro l
  induction l with
  | nil =>
    intro c hc
    constructor
    · simp [emitAll, kvListByteSize_nil]
      omega
    · exact ⟨0, by simp [emitAll]⟩
  | cons kv rest ih =>
    intro c hc
    by_cases h : maxEmitKvSize < c + kvByteSize kv
    · have habt : (emitAll maxEmitKvSize c (kv :: rest)).aborted = true := by
        simp [emitAll, h]
      constructor
      · rw [habt, kvListByteSize_cons]
        refine ⟨fun _ => ?_, fun _ => rfl⟩
        omega
      · refine ⟨1, by simp, ?_, ?_, ?_⟩
        · simp [emitAll, h]
        · intro _
          refine ⟨Nat.one_pos, ?_, ?_⟩
          · simpa [kvListByteSize_cons, kvListByteSize_nil] using h
          · intro j hj
            interval_cases j
            simpa [kvListByteSize_nil] using hc
        · intro hab
          exfalso
          simp [emitAll, h] at hab
    · have hc2 : c + kvByteSize kv ≤ maxEmitKvSize := Nat.le_of_not_lt h
      obtain ⟨hiff, k, hk, hkvs, habort, hnoabort⟩ := ih (c + kvByteSize kv) hc2
      have hestep : emitAll maxEmitKvSize c (kv :: rest) =
          { emitAll maxEmitKvSize (c + kvByteSize kv) rest with
            kvs := kv :: (emitAll maxEmitKvSize (c + kvByteSize kv) rest).kvs } := by
        simp [emitAll, h]
      constructor
      · rw [hestep]
        simpa [kvListByteSize_cons, Nat.add_assoc] using hiff
      · refine ⟨k + 1, by simpa using hk, ?_, ?_, ?_⟩
        · rw [hestep]
          simp [List.take_succ_cons, hkvs]
        · intro hab
          rw [hestep] at hab
          obtain ⟨hkpos, hcross, hbelow⟩ := habort hab
          refine ⟨Nat.succ_pos k, ?_, ?_⟩
          · simpa [List.take_succ_cons, kvListByteSize_cons, Nat.add_assoc]
              using hcross
          · intro j hj
            cases j with
            | zero => simpa [kvListByteSize_nil] using hc
            | succ j2 =>
              have hj2 : j2 < k := Nat.lt_of_succ_lt_succ hj
              have := hbelow j2 hj2
              simpa [List.take_succ_cons, kvListByteSize_cons, Nat.add_assoc]
                using this
        · intro hab
          rw [hestep] at hab
          have := hnoabort hab
          simp [this]

/-- A concrete context with one compiled map function that emits the
document paired with the metadata, used to evaluate the theorems below on
concrete inputs. -/
def ctxExample : map_reduce_ctx_t :=
  { functions := [fun doc meta => [(doc, meta)]],
    kvs := [],
    taskStartTime := 0,
    emitKvSize := 0,
    maxEmitKvSize := 100,
    isDocUsed := false,
    logResults := [],
    viewType := view_index_type_t.VIEW_INDEX_TYPE_MAPREDUCE }

/-- Claim C2: for every document, metadata record and context, mapDoc
returns exactly one MapResult per compiled map function, in the order the
functions were supplied: the result list has the same length as the
function list and its i-th entry is the evaluation of the i-th function. -/
theorem mapDoc_length_and_order (ctx : map_reduce_ctx_t)
    (doc meta : ErlNifBinary) :
    (mapDoc ctx doc meta).length = ctx.functions.length ∧
    ∀ (i : Nat) (f : map_function_t), ctx.functions[i]? = some f →
      (mapDoc ctx doc meta)[i]? =
        some (runMapFunction ctx.maxEmitKvSize (f doc meta)) := by
  constructor
  · simp [mapDoc]
  · intro i f hf
    simp [mapDoc, List.getElem?_map, hf]

/-- Claim C2 (witness): the length and order property evaluated on the
one-function example context, with the index hypothesis discharged at
index 0. -/
theorem mapDoc_length_and_order_witness :
    (mapDoc ctxExample "doc1" "meta1")[0]? =
      some (runMapFunction ctxExample.maxEmitKvSize
        ((fun (doc meta : ErlNifBinary) => [(doc, meta)]) "doc1" "meta1")) :=
  (mapDoc_length_and_order ctxExample "doc1" "meta1").2 0
    (fun doc meta => [(doc, meta)]) rfl

/-- Claim C3: the emitted-byte counter is non-decreasing through the emit
loop; once a map function's cumulative emitted bytes exceed the budget its
MapResult is the error variant, the recorded emissions stop at the point
the budget was crossed (they form the shortest initial segment of the
emission sequence whose size exceeds the budget, every shorter segment
being within budget), and every sibling map function in the context is
still evaluated with its own private accumulator, unaffected. -/
theorem emit_budget_enforcement (maxEmitKvSize : Nat) :
    (∀ (l : kv_pair_list_t) (c : Nat),
      c ≤ (emitAll maxEmitKvSize c l).emitKvSize) ∧
    (∀ l : kv_pair_list_t, maxEmitKvSize < kvListByteSize l →
      runMapFunction maxEmitKvSize l =
        { type := map_result_type_t.MAP_ERROR,
          result := map_result_union.error emitBudgetErrorMsg } ∧
      ∃ k, 0 < k ∧ k ≤ l.length ∧ (emitAll maxEmitKvSize 0 l).kvs = l.take k ∧
        maxEmitKvSize < kvListByteSize (l.take k) ∧
        ∀ j, j < k → kvListByteSize (l.take j) ≤ maxEmitKvSize) ∧
    (∀ (ctx : map_reduce_ctx_t) (doc meta : ErlNifBinary)
        (fs1 fs2 : function_vector_t) (f : map_function_t),
      ctx.functions = fs1 ++ f :: fs2 →
      mapDoc ctx doc meta =
        mapDoc { ctx with functions := fs1 } doc meta ++
          runMapFunction ctx.maxEmitKvSize (f doc meta) ::
            mapDoc { ctx with functions := fs2 } doc meta) := by
  refine ⟨emitAll_counter_mono maxEmitKvSize, ?_, ?_⟩
  · intro l hl
    obtain ⟨hiff, k, hk, hkvs, habort, hnoabort⟩ :=
      emitAll_spec maxEmitKvSize l 0 (Nat.zero_le _)
    have habt : (emitAll maxEmitKvSize 0 l).aborted = true := by
      rw [hiff]
      simpa using hl
    obtain ⟨hkpos, hcross, hbelow⟩ := habort habt
    refine ⟨?_, k, hkpos, hk, hkvs, by simpa using hcross,
      fun j hj => by simpa using hbelow j hj⟩
    simp [runMapFunction, habt]
  · intro ctx doc meta fs1 fs2 f hctx
    simp [mapDoc, hctx]

/-- Claim C3 (witness): the budget-exceeded branch evaluated on a concrete
emission list whose 4 bytes exceed a budget of 3, and the sibling
independence equation evaluated on the example context, with both
hypotheses discharged concretely. -/
theorem emit_budget_enforcement_witness :
    (runMapFunction 3 [("ab", "cd")] =
      { type := map_result_type_t.MAP_ERROR,
        result := map_result_union.error emitBudgetErrorMsg } ∧
     ∃ k, 0 < k ∧ k ≤ ([("ab", "cd")] : kv_pair_list_t).length ∧
       (emitAll 3 0 [("ab", "cd")]).kvs = ([("ab", "cd")] : kv_pair_list_t).take k ∧
       3 < kvListByteSize (([("ab", "cd")] : kv_pair_list_t).take k) ∧
       ∀ j, j < k → kvListByteSize (([("ab", "cd")] : kv_pair_list_t).take j) ≤ 3) ∧
    mapDoc ctxExample "d" "m" =
      mapDoc { ctxExample with functions := [] } "d" "m" ++
        runMapFunction ctxExample.maxEmitKvSize
          ((fun (doc meta : ErlNifBinary) => [(doc, meta)]) "d" "m") ::
          mapDoc { ctxExample with functions := [] } "d" "m" :=
  ⟨(emit_budget_enforcement 3).2.1 [("ab", "cd")] (by decide),
   (emit_budget_enforcement 100).2.2 ctxExample "d" "m" [] []
     (fun doc meta => [(doc, meta)]) rfl⟩

/-- Claim C7: a map function that emits nothing for a document and
metadata record yields the kv-list variant holding the empty list, not the
error variant. -/
theorem mapDoc_no_emissions_empty_kvs (ctx : map_reduce_ctx_t)
    (doc meta : ErlNifBinary) (i : Nat) (f : map_function_t)
    (hf : ctx.functions[i]? = some f) (hemp : f doc meta = []) :
    (mapDoc ctx doc meta)[i]? =
      some { type := map_result_type_t.MAP_KVS,
             result := map_result_union.kvs [] } := by
  simp [mapDoc, List.getElem?_map, hf, hemp, runMapFunction, emitAll]

/-- A concrete context whose single map function never emits. -/
def ctxNoEmit : map_reduce_ctx_t :=
  { ctxExample with functions := [fun _ _ => []] }

/-- Claim C7 (witness): the empty-emission property evaluated on the
never-emitting example context. -/
theorem mapDoc_no_emissions_empty_kvs_witness :
    (mapDoc ctxNoEmit "d" "m")[0]? =
      some { type := map_result_type_t.MAP_KVS,
             result := map_result_union.kvs [] } :=
  mapDoc_no_emissions_empty_kvs ctxNoEmit "d" "m" 0 (fun _ _ => []) rfl rfl

/-- Claim C8 (amended): although map_result_t is a raw union with a
separately tracked discriminant (see the counterexample), every MapResult
the engine actually produces through mapDoc is well formed: its
discriminant matches the populated union member. -/
theorem mapDoc_results_wellformed (ctx : map_reduce_ctx_t)
    (doc meta : ErlNifBinary) (r : map_result_t)
    (hr : r ∈ mapDoc ctx doc meta) : map_result_wf r := by
  simp only [mapDoc, List.mem_map] at hr
  obtain ⟨f, _, rfl⟩ := hr
  unfold runMapFunction
  by_cases h : (emitAll ctx.maxEmitKvSize 0 (f doc meta)).aborted
  · simp [h, map_result_wf]
  · simp [h, map_result_wf]

/-- Claim C8 (witness): well-formedness of the concrete MapResult produced
by the example context on a concrete document, with the membership
hypothesis discharged concretely. -/
theorem mapDoc_results_wellformed_witness :
    map_result_wf (runMapFunction ctxExample.maxEmitKvSize
      ((fun (doc meta : ErlNifBinary) => [(doc, meta)]) "d" "m")) :=
  mapDoc_results_wellformed ctxExample "d" "m" _ (by simp [mapDoc, ctxExample])

/-- Modelled from the spec: the behaviour of one compiled reduce function
(the compiled bodies are not in the repository).  Invoked with the keys
list, the values list and the rereduce flag, it returns one JSON-encoded
result buffer. -/
abbrev reduce_function_t :=
  json_results_list_t → json_results_list_t → Bool → ErlNifBinary

/-- Diagnostic message raised when the keys and values lists differ in
length. -/
def arityMismatchMsg : ErlNifBinary :=
  "arity mismatch: keys and values lists differ in length"

/-- Outcome of the all-functions reduce form: the call result together
with the indices of the reduce functions actually invoked, in invocation
order. -/
structure reduce_all_outcome_t where
  result : Except ErlNifBinary json_results_list_t
  invoked : List Nat

/-- Outcome of the single-function reduce forms. -/
structure reduce_single_outcome_t where
  result : Except ErlNifBinary ErlNifBinary
  invoked : List Nat

/-- Modelled from the spec: the all-functions form of runReduce (its body
is not in the repository).  If the keys and values lists differ in length
the call fails with the arity-mismatch diagnostic and invokes no reduce
function; otherwise every reduce function is invoked in source order with
the rereduce flag false, collecting one result per function. -/
def runReduceAll (fns : List reduce_function_t)
    (keys values : json_results_list_t) : reduce_all_outcome_t :=
  if keys.length = values.length then
    { result := Except.ok (fns.map (fun f => f keys values false)),
      invoked := List.range fns.length }
  else
    { result := Except.error arityMismatchMsg, invoked := [] }

/-- Modelled from the spec: the single-function form of runReduce (its
body is not in the repository).  Same arity check, then only the function
selected by its source-list index is invoked. -/
def runReduceSingle (fns : List reduce_function_t) (reduceFunNum : Nat)
    (keys values : json_results_list_t) : reduce_single_outcome_t :=
  if keys.length = values.length then
    match fns[reduceFunNum]? with
    | some f => { result := Except.ok (f keys values false),
                  invoked := [reduceFunNum] }
    | none => { result := Except.error "invalid reduce function index",
                invoked := [] }
  else
    { result := Except.error arityMismatchMsg, invoked := [] }

/-- Modelled from the spec: runRereduce (its body is not in the
repository).  The selected reduce function is invoked with no keys, the
list of previous reductions as values, and the rereduce flag true; the
call performs no keys/values arity comparison because it receives a single
list. -/
def runRereduce (fns : List reduce_function_t) (reduceFunNum : Nat)
    (reductions : json_results_list_t) : reduce_single_outcome_t :=
  match fns[reduceFunNum]? with
  | some f => { result := Except.ok (f [] reductions true),
                invoked := [reduceFunNum] }
  | none => { result := Except.error "invalid reduce function index",
              invoked := [] }

/-- Claim C4 (counterexample): runRereduce does not fail on a length
mismatch between its (absent, hence empty) keys list and a positive-length
reductions list: with one reduce function returning the buffer 10, called
on the two previous reductions 6 and 4, the call succeeds and invokes the
function, contradicting the claim that runRereduce fails with an
arity-mismatch diagnostic and invokes nothing whenever the lengths differ. -/
theorem runRereduce_no_arity_check_counterexample :
    (runRereduce [fun _ _ _ => "10"] 0 ["6", "4"]).result = Except.ok "10" ∧
    (runRereduce [fun _ _ _ => "10"] 0 ["6", "4"]).invoked = [0] :=
  ⟨rfl, rfl⟩

/-- Claim C4 (amended): for every pair of keys and values lists whose
lengths differ, including length 0 paired with a positive length, both
forms of runReduce fail with the arity-mismatch diagnostic and invoke no
reduce function at all; runRereduce receives a single reductions list and
performs no such arity check. -/
theorem runReduce_arity_mismatch (fns : List reduce_function_t)
    (reduceFunNum : Nat) (keys values : json_results_list_t)
    (h : keys.length ≠ values.length) :
    (runReduceAll fns keys values).result = Except.error arityMismatchMsg ∧
    (runReduceAll fns keys values).invoked = [] ∧
    (runReduceSingle fns reduceFunNum keys values).result =
      Except.error arityMismatchMsg ∧
    (runReduceSingle fns reduceFunNum keys values).invoked = [] := by
  refine ⟨?_, ?_, ?_, ?_⟩ <;> simp [runReduceAll, runReduceSingle, h]

/-- Claim C4 (witness): the amended arity-mismatch property evaluated with
one reduce function on an empty keys list paired with a one-element values
list, the length hypothesis discharged by computation. -/
theorem runReduce_arity_mismatch_witness :
    (runReduceAll [fun _ _ _ => "0"] [] ["1"]).result =
      Except.error arityMismatchMsg ∧
    (runReduceAll [fun _ _ _ => "0"] [] ["1"]).invoked = [] ∧
    (runReduceSingle [fun _ _ _ => "0"] 0 [] ["1"]).result =
      Except.error arityMismatchMsg ∧
    (runReduceSingle [fun _ _ _ => "0"] 0 [] ["1"]).invoked = [] :=
  runReduce_arity_mismatch [fun _ _ _ => "0"] 0 [] ["1"] (by decide)

/-- Modelled from the spec: compilation of the supplied function sources
in order (the initContext body is not in the repository; compilation is
performed by the scripting runtime, abstracted here as the `compile`
argument).  The first source that fails to compile aborts the whole pass
with a diagnostic carrying the position of the offending source. -/
def compileAll (compile : function_source_t → Except ErlNifBinary map_function_t) :
    Nat → function_sources_list_t →
      Except (Nat × ErlNifBinary) function_vector_t
  | _, [] => Except.ok []
  | i, src :: rest =>
    match compile src with
    | Except.error e => Except.error (i, e)
    | Except.ok f =>
      match compileAll compile (i + 1) rest with
      | Except.error ie => Except.error ie
      | Except.ok fs => Except.ok (f :: fs)

/-- Modelled from the spec: initContext (its body is not in the
repository).  All supplied sources are compiled in order; on any compile
failure a diagnostic identifying the offending source position is raised
and no context is returned; on success the context holds one compiled
function per source, fresh scratch state, the given view type and the
given emission budget. -/
def initContext (compile : function_source_t → Except ErlNifBinary map_function_t)
    (funs : function_sources_list_t) (viewType : view_index_type_t)
    (maxEmitKvSize : Nat) : Except (Nat × ErlNifBinary) map_reduce_ctx_t :=
  match compileAll compile 0 funs with
  | Except.error ie => Except.error ie
  | Except.ok fs =>
    Except.ok
      { functions := fs,
        kvs := [],
        taskStartTime := 0,
        emitKvSize := 0,
        maxEmitKvSize := maxEmitKvSize,
        isDocUsed := false,
        logResults := [],
        viewType := viewType }

/-- Compiling from any starting position succeeds with one compiled
function per source, or fails at an absolute position pointing at the
first source whose compilation fails. -/
theorem compileAll_spec
    (compile : function_source_t → Except ErlNifBinary map_function_t) :
    ∀ (funs : function_sources_list_t) (i0 : Nat),
      (∀ fs, compileAll compile i0 funs = Except.ok fs →
        fs.length = funs.length) ∧
      (∀ i e, compileAll compile i0 funs = Except.error (i, e) →
        i0 ≤ i ∧ ∃ src, funs[i - i0]? = some src ∧ compile src = Except.error e ∧
          ∀ j, j < i - i0 → ∃ s2 f2, funs[j]? = some s2 ∧
            compile s2 = Except.ok f2) := by
  intro funs
  induction funs with
  | nil =>
    intro i0
    constructor
    · intro fs h
      simp [compileAll] at h
      simp [← h]
    · intro i e h
      simp [compileAll] at h
  | cons src rest ih =>
    intro i0
    constructor
    · intro fs h
      simp only [compileAll] at h
      cases hc : compile src with
      | error e => rw [hc] at h; exact absurd h (by simp)
      | ok f =>
        rw [hc] at h
        cases hr : compileAll compile (i0 + 1) rest with
        | error ie => rw [hr] at h; exact absurd h (by simp)
        | ok fs2 =>
          rw [hr] at h
          have hlen := (ih (i0 + 1)).1 fs2 hr
          simp only [Except.ok.injEq] at h
          simp [← h, hlen]
    · intro i e h
      simp only [compileAll] at h
      cases hc : compile src with
      | error e2 =>
        rw [hc] at h
        simp only [Except.error.injEq, Prod.mk.injEq] at h
        obtain ⟨rfl, rfl⟩ := h
        refine ⟨Nat.le_refl i0, src, ?_, hc, ?_⟩
        · simp [Nat.sub_self]
        · intro j hj
          omega
      | ok f =>
        rw [hc] at h
        cases hr : compileAll compile (i0 + 1) rest with
        | error ie =>
          rw [hr] at h
          simp only [Except.error.injEq] at h
          obtain ⟨hle, src2, hsrc, hce, hbefore⟩ := (ih (i0 + 1)).2 i e (by rw [hr, h])
          have hge : i0 + 1 ≤ i := hle
          refine ⟨by omega, src2, ?_, hce, ?_⟩
          · have : i - i0 = (i - (i0 + 1)) + 1 := by omega
            rw [this]
            simpa using hsrc
          · intro j hj
            cases j with
            | zero => exact ⟨src, f, by simp, hc⟩
            | succ j2 =>
              have hj2 : j2 < i - (i0 + 1) := by omega
              obtain ⟨s2, f2, hs2, hf2⟩ := hbefore j2 hj2
              exact ⟨s2, f2, by simpa using hs2, hf2⟩
        | ok fs2 =>
          rw [hr] at h
          exact absurd h (by simp)

/-- Claim C6: initContext is all-or-nothing.  On success the context's
compiled-function list has exactly one function per supplied source; on a
compile failure the raised diagnostic identifies the offending source
position: the source at that position fails to compile, every earlier
source compiles, and no context is returned (the error carries only the
diagnostic).  The embedding is pure, so the function list of a returned
context is fixed thereafter. -/
theorem initContext_all_or_nothing
    (compile : function_source_t → Except ErlNifBinary map_function_t)
    (funs : function_sources_list_t) (viewType : view_index_type_t)
    (maxEmitKvSize : Nat) :
    (∀ ctx, initContext compile funs viewType maxEmitKvSize = Except.ok ctx →
      ctx.functions.length = funs.length) ∧
    (∀ i e, initContext compile funs viewType maxEmitKvSize =
        Except.error (i, e) →
      ∃ src, funs[i]? = some src ∧ compile src = Except.error e ∧
        ∀ j, j < i → ∃ s2 f2, funs[j]? = some s2 ∧
          compile s2 = Except.ok f2) := by
  constructor
  · intro ctx h
    simp only [initContext] at h
    cases hr : compileAll compile 0 funs with
    | error ie => rw [hr] at h; exact absurd h (by simp)
    | ok fs =>
      rw [hr] at h
      have hlen := (compileAll_spec compile funs 0).1 fs hr
      simp only [Except.ok.injEq] at h
      simp [← h, hlen]
  · intro i e h
    simp only [initContext] at h
    cases hr : compileAll compile 0 funs with
    | error ie =>
      rw [hr] at h
      simp only [Except.error.injEq] at h
      obtain ⟨_, src, hsrc, hce, hbefore⟩ :=
        (compileAll_spec compile funs 0).2 i e (by rw [hr, h])
      exact ⟨src, by simpa using hsrc, hce, fun j hj => hbefore j (by omega)⟩
    | ok fs =>
      rw [hr] at h
      exact absurd h (by simp)

/-- A concrete compiler stub for evaluating initContext: the source text
bad fails to compile, every other source compiles to a function emitting
nothing. -/
def compileStub (src : function_source_t) :
    Except ErlNifBinary map_function_t :=
  if src = "bad" then Except.error "compile error" else Except.ok (fun _ _ => [])

/-- Claim C6 (witness): the success half evaluated on two good sources
(two compiled functions) and the failure half evaluated on a list whose
second source is bad (error at position 1, position 0 compiling fine),
with both hypotheses discharged by computation. -/
theorem initContext_all_or_nothing_witness :
    (∃ ctx, initContext compileStub ["fa", "fb"]
        view_index_type_t.VIEW_INDEX_TYPE_MAPREDUCE 100 = Except.ok ctx ∧
      ctx.functions.length = (["fa", "fb"] : function_sources_list_t).length) ∧
    (∃ src, (["fa", "bad"] : function_sources_list_t)[1]? = some src ∧
      compileStub src = Except.error "compile error" ∧
      ∀ j, j < 1 → ∃ s2 f2,
        (["fa", "bad"] : function_sources_list_t)[j]? = some s2 ∧
        compileStub s2 = Except.ok f2) := by
  constructor
  · refine ⟨{ functions := [fun _ _ => [], fun _ _ => []],
              kvs := [], taskStartTime := 0, emitKvSize := 0,
              maxEmitKvSize := 100, isDocUsed := false, logResults := [],
              viewType := view_index_type_t.VIEW_INDEX_TYPE_MAPREDUCE },
            ?_, ?_⟩
    · rfl
    · exact (initContext_all_or_nothing compileStub ["fa", "fb"]
        view_index_type_t.VIEW_INDEX_TYPE_MAPREDUCE 100).1 _ rfl
  · exact (initContext_all_or_nothing compileStub ["fa", "bad"]
      view_index_type_t.VIEW_INDEX_TYPE_MAPREDUCE 100).2 1 "compile error" rfl

/-- Modelled from the spec: the operations of the process-wide engine
lifecycle (the initV8 and deinitV8 bodies are not in the repository; the
header documents them as once-per-process calls). -/
inductive v8_op where
  | initV8
  | createContext
  | destroyContext
  | deinitV8
deriving Repr, DecidableEq

/-- Modelled from the spec: the observable process lifecycle state — how
many times initV8 and deinitV8 have run and how many contexts are alive. -/
structure v8_process_state where
  initCount : Nat
  deinitCount : Nat
  liveContexts : Nat
deriving Repr, DecidableEq

/-- The process state before anything has run. -/
def v8_initial : v8_process_state :=
  { initCount := 0, deinitCount := 0, liveContexts := 0 }

/-- Modelled from the spec: one lifecycle operation.  initV8 is a misuse
error unless it is the first call; context creation requires the engine
initialized and not yet torn down; destroying requires a live context;
deinitV8 is a misuse error unless the engine is initialized, not yet torn
down, and every context has been destroyed.  Misuse returns none. -/
def v8_step (s : v8_process_state) : v8_op → Option v8_process_state
  | v8_op.initV8 =>
    if s.initCount = 0 then some { s with initCount := 1 } else none
  | v8_op.createContext =>
    if s.initCount = 1 ∧ s.deinitCount = 0 then
      some { s with liveContexts := s.liveContexts + 1 }
    else none
  | v8_op.destroyContext =>
    if 0 < s.liveContexts then
      some { s with liveContexts := s.liveContexts - 1 }
    else none
  | v8_op.deinitV8 =>
    if s.initCount = 1 ∧ s.deinitCount = 0 ∧ s.liveContexts = 0 then
      some { s with deinitCount := 1 }
    else none

/-- Running a sequence of lifecycle operations from a state; none as soon
as one operation is a misuse error. -/
def v8_run (s : v8_process_state) : List v8_op → Option v8_process_state
  | [] => some s
  | op :: rest =>
    match v8_step s op with
    | none => none
    | some s2 => v8_run s2 rest

/-- The lifecycle invariant: initV8 and deinitV8 have each run at most
once, deinitV8 has not outrun initV8, and a live context implies the
engine is initialized and not torn down. -/
def v8_lifecycle_inv (s : v8_process_state) : Prop :=
  s.initCount ≤ 1 ∧ s.deinitCount ≤ s.initCount ∧
    (0 < s.liveContexts → s.initCount = 1 ∧ s.deinitCount = 0)

/-- One non-misuse step preserves the lifecycle invariant. -/
theorem v8_step_preserves_inv (s s2 : v8_process_state) (op : v8_op)
    (hinv : v8_lifecycle_inv s) (h : v8_step s op = some s2) :
    v8_lifecycle_inv s2 := by
  obtain ⟨h1, h2, h3⟩ := hinv
  cases op <;> simp only [v8_step] at h <;> split at h
  all_goals
    first
      | exact Option.noConfusion h
      | (simp only [Option.some.injEq] at h
         subst h
         simp only [v8_lifecycle_inv]
         omega)

/-- Any sequence of lifecycle operations accepted from an invariant state
ends in an invariant state. -/
theorem v8_run_preserves_inv :
    ∀ (ops : List v8_op) (s s2 : v8_process_state),
      v8_lifecycle_inv s → v8_run s ops = some s2 → v8_lifecycle_inv s2 := by
  intro ops
  induction ops with
  | nil =>
    intro s s2 hinv h
    simp only [v8_run, Option.some.injEq] at h
    exact h ▸ hinv
  | cons op rest ih =>
    intro s s2 hinv h
    simp only [v8_run] at h
    cases hstep : v8_step s op with
    | none => rw [hstep] at h; exact Option.noConfusion h
    | some s3 =>
      rw [hstep] at h
      exact ih s3 s2 (v8_step_preserves_inv s s3 op hinv hstep) h

/-- Claim C9: the process lifecycle is a valid state machine.  Along any
accepted operation sequence from the initial state, initV8 and deinitV8
have each run at most once with deinitV8 never outrunning initV8, no
context is ever alive outside the init/teardown window, and the misuse
moves are rejected: a second initV8 is refused once initV8 has run, and
deinitV8 is refused while any context is alive.  An accepted sequence
cannot create a context before initV8 nor run anything after deinitV8, so
each of the two runs exactly once on any sequence that creates a context
and tears the engine down. -/
theorem v8_lifecycle_state_machine (ops : List v8_op) (s : v8_process_state)
    (h : v8_run v8_initial ops = some s) :
    v8_lifecycle_inv s ∧
    (s.initCount = 1 → v8_step s v8_op.initV8 = none) ∧
    (0 < s.liveContexts → v8_step s v8_op.deinitV8 = none) ∧
    (s.deinitCount = 1 → v8_step s v8_op.createContext = none) := by
  have hinv : v8_lifecycle_inv s :=
    v8_run_preserves_inv ops v8_initial s (by simp [v8_lifecycle_inv, v8_initial]) h
  refine ⟨hinv, ?_, ?_, ?_⟩
  · intro h1
    simp [v8_step, h1]
  · intro hl
    simp only [v8_step]
    split
    · next hg => omega
    · rfl
  · intro hd
    simp [v8_step, hd]

/-- Claim C9 (witness): the state machine property evaluated on the
concrete accepted sequence init, create, destroy, deinit, whose run from
the initial state is computed concretely. -/
theorem v8_lifecycle_state_machine_witness :
    v8_lifecycle_inv
      { initCount := 1, deinitCount := 1, liveContexts := 0 } ∧
    v8_step { initCount := 1, deinitCount := 1, liveContexts := 0 }
      v8_op.initV8 = none := by
  have := v8_lifecycle_state_machine
    [v8_op.initV8, v8_op.createContext, v8_op.destroyContext, v8_op.deinitV8]
    { initCount := 1, deinitCount := 1, liveContexts := 0 } (by rfl)
  exact ⟨this.1, this.2.1 rfl⟩

/-- Modelled from the spec: who can hold the context's exitMutex — the
thread delivering a termination signal or the thread destroying the
context. -/
inductive lock_owner_t where
  | terminator
  | destroyer
deriving Repr, DecidableEq

/-- Modelled from the spec: the joint state of one terminateTask call and
one destroyContext call racing on the same context (their bodies are not
in the repository; the spec states both acquire the context's single
exitMutex, terminateTask signals the runtime's cooperative interrupt under
the lock, destroyContext disposes the runtime instance under the lock).
pcT is the terminateTask program counter: 0 before acquiring the lock, 1
holding the lock before inspecting the runtime, 2 holding the lock about
to deliver the signal to a runtime it found alive, 3 returned.  pcD is the
destroyContext program counter: 0 before acquiring the lock, 1 holding the
lock about to dispose the runtime, 2 returned.  isolateAlive records
whether the runtime instance is still valid, and signaledTo records the
runtime states (alive or disposed) signal delivery has happened in. -/
structure term_destroy_state where
  lockHeldBy : Option lock_owner_t
  isolateAlive : Bool
  pcT : Nat
  pcD : Nat
  signaledWhileDisposed : Bool
deriving Repr, DecidableEq

/-- The state before either call has started: runtime alive, lock free. -/
def td_init : term_destroy_state :=
  { lockHeldBy := none, isolateAlive := true, pcT := 0, pcD := 0,
    signaledWhileDisposed := false }

/-- Modelled from the spec: one interleaved step of the racing
terminateTask and destroyContext calls.  The terminator acquires the free
lock, inspects the runtime under the lock, delivers the interrupt signal
only if it found the runtime alive (recording whether delivery hit a
disposed runtime) and releases the lock; signaling after destruction
begins degenerates to releasing the lock with no effect.  The destroyer
acquires the free lock, disposes the runtime and releases the lock. -/
inductive td_step : term_destroy_state → term_destroy_state → Prop where
  | tLock (s : term_destroy_state) (h1 : s.pcT = 0) (h2 : s.lockHeldBy = none) :
      td_step s { s with pcT := 1, lockHeldBy := some lock_owner_t.terminator }
  | tSeesAlive (s : term_destroy_state) (h1 : s.pcT = 1)
      (h2 : s.isolateAlive = true) :
      td_step s { s with pcT := 2 }
  | tSeesDisposed (s : term_destroy_state) (h1 : s.pcT = 1)
      (h2 : s.isolateAlive = false) :
      td_step s { s with pcT := 3, lockHeldBy := none }
  | tSignal (s : term_destroy_state) (h1 : s.pcT = 2) :
      td_step s
        { s with
            pcT := 3,
            lockHeldBy := none,
            signaledWhileDisposed := s.signaledWhileDisposed || !s.isolateAlive }
  | dLock (s : term_destroy_state) (h1 : s.pcD = 0) (h2 : s.lockHeldBy = none) :
      td_step s { s with pcD := 1, lockHeldBy := some lock_owner_t.destroyer }
  | dDispose (s : term_destroy_state) (h1 : s.pcD = 1) :
      td_step s { s with pcD := 2, isolateAlive := false, lockHeldBy := none }

/-- The states reachable by interleaving the two calls from the start. -/
def td_reachable (s : term_destroy_state) : Prop :=
  Relation.ReflTransGen td_step td_init s

/-- The inductive invariant of the race: a terminator inside its critical
section holds the lock, a destroyer inside its critical section holds the
lock, a terminator about to signal saw the runtime alive and still holds
the lock so the runtime is still alive, and no signal has ever been
delivered to a disposed runtime. -/
def td_inv (s : term_destroy_state) : Prop :=
  ((s.pcT = 1 ∨ s.pcT = 2) → s.lockHeldBy = some lock_owner_t.terminator) ∧
  (s.pcD = 1 → s.lockHeldBy = some lock_owner_t.destroyer) ∧
  (s.pcT = 2 → s.isolateAlive = true) ∧
  s.signaledWhileDisposed = false

/-- Each interleaved step preserves the invariant. -/
theorem td_step_preserves_inv (s s2 : term_destroy_state)
    (hinv : td_inv s) (h : td_step s s2) : td_inv s2 := by
  obtain ⟨hT, hD, hA, hS⟩ := hinv
  cases h with
  | tLock h1 h2 =>
    refine ⟨fun _ => rfl, ?_, ?_, hS⟩
    · intro hd
      have hcontra := hD hd
      rw [h2] at hcontra
      exact Option.noConfusion hcontra
    · intro hp
      simp at hp
  | tSeesAlive h1 h2 =>
    exact ⟨fun _ => hT (Or.inl h1), fun hd => hD hd, fun _ => h2, hS⟩
  | tSeesDisposed h1 h2 =>
    refine ⟨?_, ?_, ?_, hS⟩
    · intro hp
      simp at hp
    · intro hd
      have ha := hD hd
      have hb := hT (Or.inl h1)
      rw [hb] at ha
      exact absurd ha (by decide)
    · intro hp
      simp at hp
  | tSignal h1 =>
    refine ⟨?_, ?_, ?_, ?_⟩
    · intro hp
      simp at hp
    · intro hd
      have ha := hD hd
      have hb := hT (Or.inr h1)
      rw [hb] at ha
      exact absurd ha (by decide)
    · intro hp
      simp at hp
    · simp [hS, hA h1]
  | dLock h1 h2 =>
    refine ⟨?_, fun _ => rfl, fun hp => hA hp, hS⟩
    · intro hp
      have hcontra := hT hp
      rw [h2] at hcontra
      exact Option.noConfusion hcontra
  | dDispose h1 =>
    refine ⟨?_, ?_, ?_, hS⟩
    · intro hp
      have ha := hT hp
      have hb := hD h1
      rw [hb] at ha
      exact absurd ha (by decide)
    · intro hd
      simp at hd
    · intro hp
      have ha := hT (Or.inr hp)
      have hb := hD h1
      rw [hb] at ha
      exact absurd ha (by decide)

/-- Claim C5: terminateTask and destroyContext on the same context
serialize on the context's single exitMutex.  In every reachable
interleaving of the two calls, the two critical sections are mutually
exclusive, a terminator about to deliver the interrupt signal always faces
a live runtime (it can never operate on a disposed runtime instance), and
no signal is ever delivered once destruction has begun: cancellation
signaled after disposal degenerates to a no-op. -/
theorem terminate_destroy_serialized (s : term_destroy_state)
    (h : td_reachable s) :
    ¬((s.pcT = 1 ∨ s.pcT = 2) ∧ s.pcD = 1) ∧
    (s.pcT = 2 → s.isolateAlive = true) ∧
    s.signaledWhileDisposed = false := by
  have hinv : td_inv s := by
    induction h with
    | refl => exact ⟨by simp [td_init], by simp [td_init], by simp [td_init], rfl⟩
    | tail _ hstep ih => exact td_step_preserves_inv _ _ ih hstep
  obtain ⟨hT, hD, hA, hS⟩ := hinv
  refine ⟨?_, hA, hS⟩
  rintro ⟨hp, hd⟩
  have h1 := hT hp
  have h2 := hD hd
  rw [h1] at h2
  exact absurd h2 (by simp)

/-- Claim C5 (witness): the serialization property evaluated at the
initial state of the race, whose reachability is immediate. -/
theorem terminate_destroy_serialized_witness :
    ¬((td_init.pcT = 1 ∨ td_init.pcT = 2) ∧ td_init.pcD = 1) ∧
    (td_init.pcT = 2 → td_init.isolateAlive = true) ∧
    td_init.signaledWhileDisposed = false :=
  terminate_destroy_serialized td_init Relation.ReflTransGen.refl
